import Mathlib

/-!
Verification of the `duim.py` disk-usage reporter.

This file shallowly embeds the computational pipeline of `src/duim.py`:
`create_dir_dict` (the du-output parser), `percent_to_graph` (the bar
renderer), `human_readable` (the size formatter), and the body of `main`
(pop the target's total, stable descending sort, percent computation and
row formatting).  Python real arithmetic is modelled exactly over `ℚ`
(all divisions performed by the source are by 1024 or by the total, and
the model treats them as exact), Python `round` is modelled as
round-half-to-even (`pyRound`), and Python `int(...)` parsing is modelled
by `pyIntParse` (optional surrounding whitespace, optional sign, ASCII
digits with single underscores between digits).  Exceptions raised by the
source are modelled with `Except`.
-/

namespace Duim

/-- Python's `round` on an exact real value: round half to even.
`q.num / q.den` is `⌊q⌋` (`Rat.floor_def`), spelled out so that the
kernel can evaluate it. -/
def pyRound (q : ℚ) : ℤ :=
  let f : ℤ := q.num / (q.den : ℤ)
  let r := q - (f : ℚ)
  if r < 1/2 then f
  else if 1/2 < r then f + 1
  else if f % 2 = 0 then f else f + 1

/-- Characters removed by Python `str.strip()` (ASCII whitespace). -/
def isPySpace (c : Char) : Bool :=
  c = ' ' || c = '\t' || c = '\n' || c = '\r' || c = '\x0b' || c = '\x0c'

/-- Python `str.strip()` on a character list. -/
def pyStrip (s : List Char) : List Char :=
  ((s.dropWhile isPySpace).reverse.dropWhile isPySpace).reverse

/-- Numeric value of an ASCII digit character. -/
def digitVal (c : Char) : ℕ := c.toNat - 48

/-- Continuation of `pyDigits`: digits already begun, single underscores
allowed between digits (Python integer-literal grammar). -/
def pyDigitsGo (acc : ℕ) : List Char → Option ℕ
  | [] => some acc
  | '_' :: c :: cs => if c.isDigit then pyDigitsGo (acc * 10 + digitVal c) cs else none
  | ['_'] => none
  | c :: cs => if c.isDigit then pyDigitsGo (acc * 10 + digitVal c) cs else none

/-- Python `digitpart`: nonempty digit run, single underscores between digits. -/
def pyDigits : List Char → Option ℕ
  | [] => none
  | c :: cs => if c.isDigit then pyDigitsGo (digitVal c) cs else none

/-- Python `int(s)` for base 10: strip whitespace, optional sign, digit part.
Returns `none` where Python raises `ValueError`. -/
def pyIntParse (s : String) : Option ℤ :=
  match pyStrip s.data with
  | '-' :: rest => (pyDigits rest).map (fun n => -(n : ℤ))
  | '+' :: rest => (pyDigits rest).map (fun n => (n : ℤ))
  | rest => (pyDigits rest).map (fun n => (n : ℤ))

/-- Python dict insertion `d[k] = v`: overwrite in place if the key is
present (keeping its original position), else append. -/
def pyDictInsert : List (String × ℤ) → String → ℤ → List (String × ℤ)
  | [], k, v => [(k, v)]
  | (k', v') :: rest, k, v =>
    if k' = k then (k, v) :: rest else (k', v') :: pyDictInsert rest k v

/-- Python dict lookup (association-list model, first match). -/
def pyDictLookup : List (String × ℤ) → String → Option ℤ
  | [], _ => none
  | (k, v) :: rest, key => if k = key then some v else pyDictLookup rest key

/-- Removal part of Python `dict.pop(key, default)`. -/
def pyDictRemove : List (String × ℤ) → String → List (String × ℤ)
  | [], _ => []
  | (k, v) :: rest, key => if k = key then rest else (k, v) :: pyDictRemove rest key

/-- Python `str.split(sep)` for a one-character separator, on character
lists: cut at every occurrence of `sep`, keeping empty fields. -/
def splitOnChar (sep : Char) : List Char → List (List Char)
  | [] => [[]]
  | c :: cs =>
    if c = sep then [] :: splitOnChar sep cs
    else
      match splitOnChar sep cs with
      | [] => [[c]]
      | w :: ws => (c :: w) :: ws

/-- `line.split('\t')` from `create_dir_dict`. -/
def pySplitTab (s : String) : List String :=
  (splitOnChar '\t' s.data).map String.mk

/-- Loop of `create_dir_dict`: split each line on tab; exactly-two-field
lines are inserted (the size via `int(...)`, whose `ValueError` is
modelled as `Except.error` carrying the offending field); all other
shapes are skipped. -/
def createDirDictAux (acc : List (String × ℤ)) :
    List String → Except String (List (String × ℤ))
  | [] => .ok acc
  | line :: rest =>
    match pySplitTab line with
    | [size, directory] =>
      match pyIntParse size with
      | some v => createDirDictAux (pyDictInsert acc directory v) rest
      | none => .error size
    | _ => createDirDictAux acc rest

/-- `create_dir_dict(du_output)` from `src/duim.py`: dictionary from the
du output, or the uncaught `ValueError` from a non-integer size field. -/
def create_dir_dict (du_output : List String) : Except String (List (String × ℤ)) :=
  createDirDictAux [] du_output

/-- `percent_to_graph(percent, total_chars)` from `src/duim.py`: guard
`0 <= percent <= 100` (else `ValueError`, modelled as `Except.error`),
then `round` the filled length and concatenate `=` and space runs
(Python string repetition with a negative count yields the empty
string, hence `Int.toNat`). -/
def percent_to_graph (percent : ℚ) (total_chars : ℤ) : Except String String :=
  if 0 ≤ percent ∧ percent ≤ 100 then
    let filled : ℤ := pyRound (percent / 100 * (total_chars : ℚ))
    .ok (String.mk (List.replicate filled.toNat '=' ++
      List.replicate (total_chars - filled).toNat ' '))
  else
    .error "Percent must be between 0 and 100."

/-- Python `f"{q:.1f}"`: round half to even at the tenths digit. -/
def formatFixed1 (q : ℚ) : String :=
  let t := pyRound (10 * q)
  if t < 0 then "-" ++ toString ((-t).toNat / 10) ++ "." ++ toString ((-t).toNat % 10)
  else toString (t.toNat / 10) ++ "." ++ toString (t.toNat % 10)

/-- Python `f"{q:.0f}"`: round half to even to an integer. -/
def formatFixed0 (q : ℚ) : String :=
  let t := pyRound q
  if t < 0 then "-" ++ toString (-t).toNat else toString t.toNat

/-- Python `f"{s:>w}"`: right-align in `w` columns, padding with spaces. -/
def padLeft (s : String) (w : ℕ) : String :=
  String.mk (List.replicate (w - s.length) ' ') ++ s

/-- Loop of `human_readable`: walk the unit list while the byte count is
at least 1024, dividing by 1024 at each step; past the last listed unit
the value is reported in `P`. Returns the value to format and the unit. -/
def humanReadableAux : ℚ → List String → ℚ × String
  | bytes, [] => (bytes, "P")
  | bytes, u :: rest =>
    if bytes < 1024 then (bytes, u) else humanReadableAux (bytes / 1024) rest

/-- Value/unit pair chosen by `human_readable(size_kb)`. -/
def humanReadablePair (size_kb : ℤ) : ℚ × String :=
  humanReadableAux ((size_kb : ℚ) * 1024) ["B", "K", "M", "G", "T"]

/-- `human_readable(size_kb)` from `src/duim.py`. -/
def human_readable (size_kb : ℤ) : String :=
  formatFixed1 (humanReadablePair size_kb).1 ++ " " ++ (humanReadablePair size_kb).2

/-- Byte multiplier of each unit letter used by `human_readable`. -/
def unitMult (u : String) : ℚ :=
  if u = "B" then 1
  else if u = "K" then 1024
  else if u = "M" then 1024 ^ 2
  else if u = "G" then 1024 ^ 3
  else if u = "T" then 1024 ^ 4
  else 1024 ^ 5

/-- Insertion step of the stable descending sort: the inserted element
(later in the original order) goes after every earlier element of equal
or larger size. -/
def insertDesc (x : String × ℤ) : List (String × ℤ) → List (String × ℤ)
  | [] => [x]
  | y :: ys => if y.2 ≤ x.2 then x :: y :: ys else y :: insertDesc x ys

/-- `sorted(items, key=lambda x: x[1], reverse=True)` from `main`:
Python's `sorted` is a stable sort, so it is extensionally the stable
insertion sort by size descending. -/
def sortDesc : List (String × ℤ) → List (String × ℤ)
  | [] => []
  | x :: xs => insertDesc x (sortDesc xs)

/-- Percent computation of `main`:
`(size / total_size) * 100 if total_size > 0 else 0`. -/
def pyPercent (size total : ℤ) : ℚ :=
  if 0 < total then ((size : ℚ) / (total : ℚ)) * 100 else 0

/-- One row of `main`'s report:
`f"{percent:>3.0f} % [{bar}] {size_str:>8}  {directory}"`, where the bar
may raise `ValueError`. -/
def duimRow (len : ℤ) (human : Bool) (total : ℤ) (e : String × ℤ) :
    Except String String :=
  let percent := pyPercent e.2 total
  match percent_to_graph percent len with
  | .error msg => .error msg
  | .ok bar =>
    let sizeStr := if human then human_readable e.2 else toString e.2 ++ "K"
    .ok (padLeft (formatFixed0 percent) 3 ++ " % [" ++ bar ++ "] " ++
      padLeft sizeStr 8 ++ "  " ++ e.1)

/-- The row-printing loop of `main`, collecting the printed rows; an
uncaught `ValueError` from `percent_to_graph` aborts the run. -/
def buildRows : List (String × ℤ) → ℤ → ℤ → Bool → Except String (List String)
  | [], _, _, _ => .ok []
  | e :: rest, total, len, human =>
    match duimRow len human total e with
    | .error msg => .error msg
    | .ok row =>
      match buildRows rest total len human with
      | .error msg => .error msg
      | .ok rows => .ok (row :: rows)

/-- `f"Total: {total_str}   {args.target}"` from `main`. -/
def totalLine (total : ℤ) (target : String) (human : Bool) : String :=
  "Total: " ++ (if human then human_readable total else toString total ++ "K") ++
    "   " ++ target

/-- `dir_dict.pop(args.target, 0)`: the total size, defaulting to 0. -/
def totalOf (dirDict : List (String × ℤ)) (target : String) : ℤ :=
  (pyDictLookup dirDict target).getD 0

/-- The entry list `main` iterates over: the mapping with the target's
entry popped, stably sorted by size descending. -/
def mainSortedEntries (dirDict : List (String × ℤ)) (target : String) :
    List (String × ℤ) :=
  sortDesc (pyDictRemove dirDict target)

/-- Observable outcome of `main` after `create_dir_dict`:
`noSubdirectories` is the "No subdirectories found." diagnostic with
exit code 0, `valueError` an uncaught exception from `percent_to_graph`,
and `report` the printed rows plus the total line. -/
inductive MainResult where
  | noSubdirectories
  | valueError (msg : String)
  | report (rows : List String) (total : String)
deriving DecidableEq

/-- Body of `main` from `src/duim.py`, starting from the parsed mapping:
the empty-dict check happens BEFORE the target's entry is popped. -/
def mainOutcome (dirDict : List (String × ℤ)) (target : String) (len : ℤ)
    (human : Bool) : MainResult :=
  if dirDict.isEmpty then .noSubdirectories
  else
    let total := totalOf dirDict target
    match buildRows (mainSortedEntries dirDict target) total len human with
    | .error msg => .valueError msg
    | .ok rows => .report rows (totalLine total target human)

/-! ### Helper lemmas about `pyRound` -/

theorem pyRound_eq (q : ℚ) :
    pyRound q =
      if q - (⌊q⌋ : ℚ) < 1/2 then ⌊q⌋
      else if 1/2 < q - (⌊q⌋ : ℚ) then ⌊q⌋ + 1
      else if ⌊q⌋ % 2 = 0 then ⌊q⌋ else ⌊q⌋ + 1 := by
  simp only [pyRound]
  rw [← Rat.floor_def]

theorem pyRound_ge (q : ℚ) : q - 1/2 ≤ (pyRound q : ℚ) := by
  rw [pyRound_eq]
  have h0 : (⌊q⌋ : ℚ) ≤ q := Int.floor_le q
  have h1 : q < (⌊q⌋ : ℚ) + 1 := Int.lt_floor_add_one q
  split_ifs <;> push_cast <;> linarith

theorem pyRound_le (q : ℚ) : (pyRound q : ℚ) ≤ q + 1/2 := by
  rw [pyRound_eq]
  have h0 : (⌊q⌋ : ℚ) ≤ q := Int.floor_le q
  have h1 : q < (⌊q⌋ : ℚ) + 1 := Int.lt_floor_add_one q
  split_ifs <;> push_cast <;> linarith

theorem pyRound_intCast (n : ℤ) : pyRound (n : ℚ) = n := by
  rw [pyRound_eq]
  simp

theorem pyRound_nonneg {q : ℚ} (h : 0 ≤ q) : 0 ≤ pyRound q := by
  by_contra hc
  push_neg at hc
  have h1 : pyRound q ≤ -1 := by omega
  have h2 : (pyRound q : ℚ) ≤ -1 := by exact_mod_cast h1
  have h3 := pyRound_ge q
  linarith

theorem pyRound_le_int {q : ℚ} {n : ℤ} (h : q ≤ (n : ℚ)) : pyRound q ≤ n := by
  have h1 := pyRound_le q
  have h2 : (pyRound q : ℚ) < (n : ℚ) + 1 := by linarith
  have h3 : pyRound q < n + 1 := by exact_mod_cast h2
  omega

/-! ### Helper lemmas about the stable descending sort -/

theorem mem_insertDesc {a x : String × ℤ} {l : List (String × ℤ)} :
    a ∈ insertDesc x l ↔ a = x ∨ a ∈ l := by
  induction l with
  | nil => simp [insertDesc]
  | cons y ys ih =>
    simp only [insertDesc]
    split_ifs with h
    · simp [or_comm, or_left_comm]
    · simp [ih, or_comm, or_left_comm]

theorem mem_sortDesc {a : String × ℤ} {l : List (String × ℤ)} :
    a ∈ sortDesc l ↔ a ∈ l := by
  induction l with
  | nil => simp [sortDesc]
  | cons x xs ih => simp [sortDesc, mem_insertDesc, ih]

theorem insertDesc_pairwise (x : String × ℤ) (l : List (String × ℤ))
    (h : l.Pairwise (fun a b => b.2 ≤ a.2)) :
    (insertDesc x l).Pairwise (fun a b => b.2 ≤ a.2) := by
  induction l with
  | nil => simp [insertDesc]
  | cons y ys ih =>
    rw [List.pairwise_cons] at h
    simp only [insertDesc]
    split_ifs with hle
    · rw [List.pairwise_cons]
      refine ⟨?_, List.pairwise_cons.mpr h⟩
      intro z hz
      rcases List.mem_cons.mp hz with rfl | hz
      · exact hle
      · exact le_trans (h.1 z hz) hle
    · rw [List.pairwise_cons]
      refine ⟨?_, ih h.2⟩
      intro z hz
      rcases mem_insertDesc.mp hz with rfl | hz
      · exact le_of_lt (lt_of_not_le hle)
      · exact h.1 z hz

theorem sortDesc_pairwise (l : List (String × ℤ)) :
    (sortDesc l).Pairwise (fun a b => b.2 ≤ a.2) := by
  induction l with
  | nil => simp [sortDesc]
  | cons x xs ih => exact insertDesc_pairwise x (sortDesc xs) ih

theorem insertDesc_filter (x : String × ℤ) (l : List (String × ℤ)) (v : ℤ) :
    (insertDesc x l).filter (fun e => decide (e.2 = v)) =
      if x.2 = v then x :: l.filter (fun e => decide (e.2 = v))
      else l.filter (fun e => decide (e.2 = v)) := by
  induction l with
  | nil =>
    simp only [insertDesc, List.filter]
    split_ifs with h <;> simp [h]
  | cons y ys ih =>
    simp only [insertDesc]
    by_cases hle : y.2 ≤ x.2
    · rw [if_pos hle]
      by_cases hx : x.2 = v <;> simp [List.filter_cons, hx]
    · rw [if_neg hle]
      simp only [List.filter_cons, ih]
      by_cases hy : y.2 = v
      · have hx : ¬x.2 = v := fun hx => hle (le_of_eq (by rw [hy, hx]))
        simp [hx, hy]
      · by_cases hx : x.2 = v <;> simp [hx, hy]

theorem sortDesc_filter (l : List (String × ℤ)) (v : ℤ) :
    (sortDesc l).filter (fun e => decide (e.2 = v)) =
      l.filter (fun e => decide (e.2 = v)) := by
  induction l with
  | nil => rfl
  | cons x xs ih =>
    rw [sortDesc, insertDesc_filter, List.filter_cons, ih]
    by_cases hx : x.2 = v <;> simp [hx]

/-! ### Helper lemmas about the dict model and the parser -/

theorem mem_pyDictInsert {e : String × ℤ} {acc : List (String × ℤ)}
    {k : String} {v : ℤ} (h : e ∈ pyDictInsert acc k v) :
    e ∈ acc ∨ e = (k, v) := by
  induction acc with
  | nil => simpa [pyDictInsert, or_comm] using h
  | cons a rest ih =>
    simp only [pyDictInsert] at h
    split_ifs at h with hk
    · rcases List.mem_cons.mp h with rfl | h
      · exact Or.inr rfl
      · exact Or.inl (List.mem_cons_of_mem a h)
    · rcases List.mem_cons.mp h with rfl | h
      · exact Or.inl (List.mem_cons_self _ _)
      · rcases ih h with h' | h'
        · exact Or.inl (List.mem_cons_of_mem a h')
        · exact Or.inr h'

theorem createDirDictAux_cons (acc : List (String × ℤ)) (line : String)
    (rest : List String) :
    createDirDictAux acc (line :: rest) =
      match pySplitTab line with
      | [size, directory] =>
        match pyIntParse size with
        | some v => createDirDictAux (pyDictInsert acc directory v) rest
        | none => .error size
      | _ => createDirDictAux acc rest := rfl

theorem createDirDictAux_nonneg (input : List String) :
    ∀ acc : List (String × ℤ), (∀ e ∈ acc, 0 ≤ e.2) →
      (∀ line ∈ input, ∀ s d v, pySplitTab line = [s, d] →
        pyIntParse s = some v → 0 ≤ v) →
      ∀ m, createDirDictAux acc input = .ok m → ∀ e ∈ m, 0 ≤ e.2 := by
  induction input with
  | nil =>
    intro acc hacc _ m hm
    simp only [createDirDictAux] at hm
    cases hm
    exact hacc
  | cons line rest ih =>
    intro acc hacc hlines m hm
    rw [createDirDictAux_cons] at hm
    split at hm
    · rename_i size directory heq
      split at hm
      · rename_i v hv
        refine ih (pyDictInsert acc directory v) ?_ ?_ m hm
        · intro e he
          rcases mem_pyDictInsert he with h' | h'
          · exact hacc e h'
          · rw [h']
            exact hlines line (List.mem_cons_self _ _) size directory v heq hv
        · intro l hl
          exact hlines l (List.mem_cons_of_mem _ hl)
      · cases hm
    · exact ih acc hacc (fun l hl => hlines l (List.mem_cons_of_mem _ hl)) m hm

theorem createDirDictAux_provenance (input : List String) :
    ∀ acc m, createDirDictAux acc input = .ok m →
      ∀ e ∈ m, e ∈ acc ∨
        ∃ line ∈ input, ∃ s, pySplitTab line = [s, e.1] ∧ pyIntParse s = some e.2 := by
  induction input with
  | nil =>
    intro acc m hm e he
    simp only [createDirDictAux] at hm
    cases hm
    exact Or.inl he
  | cons line rest ih =>
    intro acc m hm e he
    rw [createDirDictAux_cons] at hm
    split at hm
    · rename_i size directory heq
      split at hm
      · rename_i v hv
        rcases ih _ m hm e he with h' | ⟨l, hl, s, hs, hp⟩
        · rcases mem_pyDictInsert h' with h'' | h''
          · exact Or.inl h''
          · refine Or.inr ⟨line, List.mem_cons_self _ _, size, ?_, ?_⟩
            · rw [h'']
              exact heq
            · rw [h'']
              exact hv
        · exact Or.inr ⟨l, List.mem_cons_of_mem _ hl, s, hs, hp⟩
      · cases hm
    · rcases ih acc m hm e he with h' | ⟨l, hl, s, hs, hp⟩
      · exact Or.inl h'
      · exact Or.inr ⟨l, List.mem_cons_of_mem _ hl, s, hs, hp⟩

theorem createDirDictAux_error (input : List String) :
    ∀ acc line, line ∈ input →
      (∃ s d, pySplitTab line = [s, d] ∧ pyIntParse s = none) →
      ∃ msg, createDirDictAux acc input = .error msg := by
  induction input with
  | nil =>
    intro acc line hl
    cases hl
  | cons hd rest ih =>
    intro acc line hl hbad
    rw [createDirDictAux_cons]
    rcases List.mem_cons.mp hl with rfl | hl
    · obtain ⟨s, d, hs, hp⟩ := hbad
      simp only [hs, hp]
      exact ⟨s, rfl⟩
    · split
      · rename_i size directory heq
        split
        · exact ih _ line hl hbad
        · rename_i hnone
          exact ⟨size, rfl⟩
      · exact ih acc line hl hbad

theorem createDirDictAux_ok (input : List String) :
    ∀ acc, (∀ line ∈ input, ∀ s d, pySplitTab line = [s, d] → pyIntParse s ≠ none) →
      ∃ m, createDirDictAux acc input = .ok m := by
  induction input with
  | nil =>
    intro acc _
    exact ⟨acc, rfl⟩
  | cons hd rest ih =>
    intro acc hgood
    rw [createDirDictAux_cons]
    split
    · rename_i size directory heq
      split
      · exact ih _ fun l hl => hgood l (List.mem_cons_of_mem _ hl)
      · rename_i hnone
        exact absurd hnone (hgood hd (List.mem_cons_self _ _) size directory heq)
    · exact ih acc fun l hl => hgood l (List.mem_cons_of_mem _ hl)

/-! ### Helper lemmas about percents and row building -/

theorem pyPercent_nonneg {size total : ℤ} (h : 0 ≤ size) :
    0 ≤ pyPercent size total := by
  rw [pyPercent]
  split_ifs with ht
  · have h1 : (0 : ℚ) ≤ (size : ℚ) := by exact_mod_cast h
    have h2 : (0 : ℚ) ≤ (total : ℚ) := by exact_mod_cast le_of_lt ht
    positivity
  · exact le_refl _

theorem pyPercent_le_100 {size total : ℤ} (h : size ≤ total) :
    pyPercent size total ≤ 100 := by
  rw [pyPercent]
  split_ifs with ht
  · have h1 : (size : ℚ) ≤ (total : ℚ) := by exact_mod_cast h
    have h2 : (0 : ℚ) < (total : ℚ) := by exact_mod_cast ht
    have h3 : (size : ℚ) / (total : ℚ) ≤ 1 := (div_le_one h2).mpr h1
    calc (size : ℚ) / (total : ℚ) * 100 ≤ 1 * 100 := by linarith
    _ = 100 := one_mul 100
  · norm_num

theorem percent_to_graph_ok {percent : ℚ} (len : ℤ) (h0 : 0 ≤ percent)
    (h1 : percent ≤ 100) :
    ∃ bar, percent_to_graph percent len = .ok bar := by
  rw [percent_to_graph]
  rw [if_pos ⟨h0, h1⟩]
  exact ⟨_, rfl⟩

theorem buildRows_ok (entries : List (String × ℤ)) (total len : ℤ) (human : Bool)
    (h : ∀ e ∈ entries, 0 ≤ pyPercent e.2 total ∧ pyPercent e.2 total ≤ 100) :
    ∃ rows, buildRows entries total len human = .ok rows := by
  induction entries with
  | nil => exact ⟨[], rfl⟩
  | cons e rest ih =>
    obtain ⟨hp0, hp1⟩ := h e (List.mem_cons_self _ _)
    obtain ⟨bar, hbar⟩ := percent_to_graph_ok len hp0 hp1
    obtain ⟨rows, hrows⟩ := ih fun e' he' => h e' (List.mem_cons_of_mem _ he')
    simp only [buildRows, duimRow, hbar, hrows]
    exact ⟨_, rfl⟩

/-! ### Helper lemmas about `human_readable` -/

theorem humanReadableAux_cases (b : ℚ) :
    ∃ i : ℕ,
      humanReadableAux b ["B", "K", "M", "G", "T"] =
        (b / 1024 ^ i, ["B", "K", "M", "G", "T", "P"].getD i "P") ∧
      unitMult (["B", "K", "M", "G", "T", "P"].getD i "P") = 1024 ^ i := by
  simp only [humanReadableAux]
  split_ifs
  · exact ⟨0, by norm_num, by simp [unitMult]⟩
  · exact ⟨1, by norm_num, by simp [unitMult]⟩
  · refine ⟨2, ?_, by simp [unitMult]⟩
    rw [div_div]
    norm_num
  · refine ⟨3, ?_, by simp [unitMult]⟩
    rw [div_div, div_div]
    norm_num
  · refine ⟨4, ?_, by simp [unitMult]⟩
    rw [div_div, div_div, div_div]
    norm_num
  · refine ⟨5, ?_, by simp [unitMult]⟩
    rw [div_div, div_div, div_div, div_div]
    norm_num

theorem unitName_mem (i : ℕ) :
    (["B", "K", "M", "G", "T", "P"].getD i "P") ∈ ["B", "K", "M", "G", "T", "P"] := by
  rcases i with _ | _ | _ | _ | _ | _ | n <;> simp [List.getD]

theorem fixed1_tolerance (v m t : ℚ) (hm : 0 < m) (hv : v * m = t) :
    |((pyRound (10 * v) : ℤ) : ℚ) / 10 * m - t| ≤ m / 20 := by
  have h1 := pyRound_ge (10 * v)
  have h2 := pyRound_le (10 * v)
  rw [← hv, abs_le]
  constructor
  · nlinarith
  · nlinarith

/-! ### Claim theorems -/

/-- C1 (counterexample): the claim says that whenever the mapping minus the
target's entry is empty the program signals `NoSubdirectories`; but on the
mapping holding only the target's entry the post-removal mapping is empty
while `main` prints an empty report with a total line and not the
diagnostic, because the emptiness check runs before `dict.pop`. -/
theorem claim_C1_counterexample :
    pyDictRemove [("/a", 5)] "/a" = [] ∧
    mainOutcome [("/a", 5)] "/a" 20 false = .report [] "Total: 5K   /a" ∧
    mainOutcome [("/a", 5)] "/a" 20 false ≠ .noSubdirectories := by
  refine ⟨by decide, by decide, by decide⟩

/-- C1 (amended): the `NoSubdirectories` diagnostic (message + exit 0) is
signalled exactly when the parsed mapping is empty BEFORE the target's
entry is removed; when the mapping is nonempty but becomes empty after
removing the target's entry, `main` instead prints a report with zero
rows followed by the total line. -/
theorem claim_C1_empty_dict_behaviour :
    (∀ (target : String) (len : ℤ) (human : Bool),
      mainOutcome [] target len human = .noSubdirectories) ∧
    ∀ (d : List (String × ℤ)) (target : String) (len : ℤ) (human : Bool),
      d ≠ [] → pyDictRemove d target = [] →
      mainOutcome d target len human =
        .report [] (totalLine (totalOf d target) target human) := by
  constructor
  · intro target len human
    rfl
  · intro d target len human hne hrem
    simp only [mainOutcome, mainSortedEntries]
    rw [if_neg (by simpa [List.isEmpty_iff] using hne), hrem]
    rfl

/-- C1 (witness): the amended behaviour at the one-entry mapping. -/
theorem claim_C1_witness :
    mainOutcome [("/a", 5)] "/a" 20 false =
      .report [] (totalLine (totalOf [("/a", 5)] "/a") "/a" false) :=
  claim_C1_empty_dict_behaviour.2 [("/a", 5)] "/a" 20 false (by decide) (by decide)

/-- C2 (counterexample): the parser accepts a negative size field
(`int("-5")` succeeds in Python), so the produced mapping can contain an
entry with `size_kb < 0`, refuting "no entry with size_kb < 0 is ever
produced". -/
theorem claim_C2_counterexample :
    create_dir_dict ["-5\t/a"] = .ok [("/a", -5)] ∧ ¬(0 ≤ (-5 : ℤ)) :=
  ⟨rfl, by decide⟩

/-- C2 (amended): every size value in the produced mapping is an integer
parsed from a size field, and the mapping's values are all non-negative
provided every well-shaped line's size field denotes a non-negative
integer (as is the case for actual `du` output); a leading minus sign can
produce a negative entry. -/
theorem claim_C2_nonneg_when_fields_nonneg (input : List String)
    (h : ∀ line ∈ input, ∀ s d v, pySplitTab line = [s, d] →
      pyIntParse s = some v → 0 ≤ v) :
    ∀ m, create_dir_dict input = .ok m → ∀ e ∈ m, 0 ≤ e.2 := by
  intro m hm
  exact createDirDictAux_nonneg input [] (by intro e he; cases he) h m hm

/-- C2 (witness): the amended claim at a concrete well-formed input. -/
theorem claim_C2_witness :
    create_dir_dict ["50\t/a"] = .ok [("/a", 50)] ∧ (0 : ℤ) ≤ (("/a", (50 : ℤ))).2 := by
  refine ⟨rfl, ?_⟩
  refine claim_C2_nonneg_when_fields_nonneg ["50\t/a"] ?_ [("/a", 50)] rfl ("/a", 50) (by decide)
  intro line hline s d v hsplit hparse
  have hl : line = "50\t/a" := by simpa using hline
  subst hl
  rw [show pySplitTab "50\t/a" = ["50", "/a"] from rfl] at hsplit
  injection hsplit with hs hrest
  subst hs
  rw [show pyIntParse "50" = some 50 from rfl] at hparse
  injection hparse with hv
  omega

/-- C5: a line that splits into exactly two tab-separated fields whose
first field does not parse as a base-10 integer makes `create_dir_dict`
raise an uncaught `ValueError` (the run terminates), while inputs none of
whose two-field lines have an unparseable size never fail, whatever other
shapes they contain. -/
theorem claim_C5_bad_size_fatal :
    (∀ (input : List String) (line : String), line ∈ input →
      (∃ s d, pySplitTab line = [s, d] ∧ pyIntParse s = none) →
      ∃ msg, create_dir_dict input = .error msg) ∧
    (∀ input : List String,
      (∀ line ∈ input, ∀ s d, pySplitTab line = [s, d] → pyIntParse s ≠ none) →
      ∃ m, create_dir_dict input = .ok m) :=
  ⟨fun input line hl hbad => createDirDictAux_error input [] line hl hbad,
   fun input hgood => createDirDictAux_ok input [] hgood⟩

/-- C5 (witness): a non-integer size on a two-field line is fatal, while a
one-field "junk" line together with a good line parses fine. -/
theorem claim_C5_witness :
    (∃ msg, create_dir_dict ["x\t/a"] = .error msg) ∧
    (∃ m, create_dir_dict ["junk", "5\t/a"] = .ok m) := by
  constructor
  · exact claim_C5_bad_size_fatal.1 ["x\t/a"] "x\t/a" (by simp) ⟨"x", "/a", rfl, rfl⟩
  · refine claim_C5_bad_size_fatal.2 ["junk", "5\t/a"] ?_
    intro line hline s d hsplit
    rcases List.mem_cons.mp hline with rfl | h2
    · rw [show pySplitTab "junk" = ["junk"] from rfl] at hsplit
      simp at hsplit
    · have hl : line = "5\t/a" := by simpa using h2
      subst hl
      rw [show pySplitTab "5\t/a" = ["5", "/a"] from rfl] at hsplit
      injection hsplit with hs hrest
      subst hs
      rw [show pyIntParse "5" = some 5 from rfl]
      simp

/-- C7: the entry list `main` iterates over is sorted by size descending,
and the sort is stable: for every size value, the entries carrying that
value appear in exactly the mapping's insertion order, so tie order is
deterministic. -/
theorem claim_C7_sorted_stable (d : List (String × ℤ)) (target : String) :
    (mainSortedEntries d target).Pairwise (fun a b => b.2 ≤ a.2) ∧
    ∀ v : ℤ, (mainSortedEntries d target).filter (fun e => decide (e.2 = v)) =
      (pyDictRemove d target).filter (fun e => decide (e.2 = v)) :=
  ⟨sortDesc_pairwise _, fun v => sortDesc_filter _ v⟩

/-- C8: when the target path is absent from the mapping the total defaults
to 0, and with a zero total every percent is 0 (the `total_size > 0` guard
short-circuits the division) and row building succeeds. -/
theorem claim_C8_zero_total (d : List (String × ℤ)) (target : String) (len : ℤ)
    (human : Bool) :
    (pyDictLookup d target = none → totalOf d target = 0) ∧
    (totalOf d target = 0 →
      (∀ size : ℤ, pyPercent size (totalOf d target) = 0) ∧
      ∃ rows, buildRows (mainSortedEntries d target) (totalOf d target) len human =
        .ok rows) := by
  constructor
  · intro h
    rw [totalOf, h]
    rfl
  · intro h0
    constructor
    · intro size
      rw [h0, pyPercent]
      simp
    · refine buildRows_ok _ _ len human ?_
      intro e he
      rw [h0, pyPercent]
      norm_num

/-- C8 (witness): a mapping without the target, evaluated concretely. -/
theorem claim_C8_witness :
    totalOf [("/b", 3)] "/a" = 0 ∧
    pyPercent 7 (totalOf [("/b", 3)] "/a") = 0 ∧
    ∃ rows, buildRows (mainSortedEntries [("/b", 3)] "/a") (totalOf [("/b", 3)] "/a")
      20 false = .ok rows := by
  have h := claim_C8_zero_total [("/b", 3)] "/a" 20 false
  have h0 : totalOf [("/b", 3)] "/a" = 0 := h.1 (by decide)
  exact ⟨h0, (h.2 h0).1 7, (h.2 h0).2⟩

/-- C9: every entry of the mapping produced by `create_dir_dict` derives
from some input line that splits into exactly two tab-separated fields
(size parsing to the entry's value, path equal to the entry's key), so
malformed lines contribute nothing. -/
theorem claim_C9_no_malformed_entries (input : List String) (m : List (String × ℤ))
    (hm : create_dir_dict input = .ok m) :
    ∀ e ∈ m, ∃ line ∈ input, ∃ s, pySplitTab line = [s, e.1] ∧
      pyIntParse s = some e.2 := by
  intro e he
  rcases createDirDictAux_provenance input [] m hm e he with h | h
  · cases h
  · exact h

/-- C9 (witness): the provenance of the single entry parsed from an input
holding one malformed and one well-formed line. -/
theorem claim_C9_witness :
    ∃ line ∈ ["junk", "5\t/a"], ∃ s, pySplitTab line = [s, (("/a", (5 : ℤ))).1] ∧
      pyIntParse s = some (("/a", (5 : ℤ))).2 :=
  claim_C9_no_malformed_entries ["junk", "5\t/a"] [("/a", 5)] rfl ("/a", 5) (by decide)

/-- C3: if every remaining entry satisfies `0 ≤ size_kb ≤ total_kb` (with
`total_kb ≥ 0` the popped target value), then every percent computed by
`main` lies in `[0, 100]`, so the `ValueError` branch of
`percent_to_graph` is unreachable and the report is built without
failure. -/
theorem claim_C3_percent_in_range (d : List (String × ℤ)) (target : String)
    (len : ℤ) (human : Bool) (_htot : 0 ≤ totalOf d target)
    (hb : ∀ e ∈ pyDictRemove d target, 0 ≤ e.2 ∧ e.2 ≤ totalOf d target) :
    (∀ e ∈ pyDictRemove d target,
      0 ≤ pyPercent e.2 (totalOf d target) ∧ pyPercent e.2 (totalOf d target) ≤ 100) ∧
    ∀ msg, mainOutcome d target len human ≠ .valueError msg := by
  have hp : ∀ e ∈ pyDictRemove d target,
      0 ≤ pyPercent e.2 (totalOf d target) ∧ pyPercent e.2 (totalOf d target) ≤ 100 :=
    fun e he => ⟨pyPercent_nonneg (hb e he).1, pyPercent_le_100 (hb e he).2⟩
  refine ⟨hp, ?_⟩
  intro msg
  simp only [mainOutcome]
  split_ifs with hemp
  · intro h
    cases h
  · have hp' : ∀ e ∈ mainSortedEntries d target,
        0 ≤ pyPercent e.2 (totalOf d target) ∧ pyPercent e.2 (totalOf d target) ≤ 100 := by
      intro e he
      rw [mainSortedEntries] at he
      exact hp e (mem_sortDesc.mp he)
    obtain ⟨rows, hrows⟩ := buildRows_ok _ _ len human hp'
    rw [hrows]
    intro h
    cases h

/-- C3 (witness): a two-entry mapping whose child is within the total. -/
theorem claim_C3_witness :
    mainOutcome [("/a", 10), ("/a/x", 4)] "/a" 20 false ≠
      .valueError "Percent must be between 0 and 100." :=
  (claim_C3_percent_in_range [("/a", 10), ("/a/x", 4)] "/a" 20 false (by decide)
    (by decide)).2 "Percent must be between 0 and 100."

/-- C4: for a percent `p ∈ [0, 100]` and a natural width `w`,
`percent_to_graph` succeeds and returns `round(p/100*w)` fill characters
followed by `w − round(p/100*w)` spaces — a string of length exactly `w`,
empty when `w = 0`. -/
theorem claim_C4_graph_shape (p : ℚ) (w : ℕ) (h0 : 0 ≤ p) (h1 : p ≤ 100) :
    percent_to_graph p (w : ℤ) = .ok (String.mk
      (List.replicate (pyRound (p / 100 * (w : ℚ))).toNat '=' ++
        List.replicate (w - (pyRound (p / 100 * (w : ℚ))).toNat) ' ')) ∧
    (pyRound (p / 100 * (w : ℚ))).toNat ≤ w ∧
    (String.mk (List.replicate (pyRound (p / 100 * (w : ℚ))).toNat '=' ++
        List.replicate (w - (pyRound (p / 100 * (w : ℚ))).toNat) ' ')).length = w ∧
    percent_to_graph p 0 = .ok "" := by
  have hw0 : (0 : ℚ) ≤ (w : ℚ) := by positivity
  have hq0 : 0 ≤ p / 100 * (w : ℚ) := mul_nonneg (div_nonneg h0 (by norm_num)) hw0
  have hq1 : p / 100 * (w : ℚ) ≤ (w : ℚ) := by
    have hd : p / 100 ≤ 1 := (div_le_one (by norm_num)).mpr h1
    nlinarith
  have hf0 : 0 ≤ pyRound (p / 100 * (w : ℚ)) := pyRound_nonneg hq0
  have hfw : pyRound (p / 100 * (w : ℚ)) ≤ (w : ℤ) := by
    refine pyRound_le_int ?_
    push_cast
    exact hq1
  have htn : (pyRound (p / 100 * (w : ℚ))).toNat ≤ w := by omega
  have hcast : (((w : ℤ)) : ℚ) = (w : ℚ) := by push_cast; rfl
  refine ⟨?_, htn, ?_, ?_⟩
  · simp only [percent_to_graph]
    rw [if_pos ⟨h0, h1⟩, hcast]
    have heq : ((w : ℤ) - pyRound (p / 100 * (w : ℚ))).toNat =
        w - (pyRound (p / 100 * (w : ℚ))).toNat := by omega
    rw [heq]
  · simp only [String.length, List.length_append, List.length_replicate]
    omega
  · have hz : pyRound (p / 100 * ((0 : ℤ) : ℚ)) = 0 := by
      rw [show p / 100 * ((0 : ℤ) : ℚ) = ((0 : ℤ) : ℚ) by push_cast; ring,
        pyRound_intCast]
    simp only [percent_to_graph]
    rw [if_pos ⟨h0, h1⟩, hz]
    rfl

/-- C4 (witness): the bound at `p = 50`, `w = 20`. -/
theorem claim_C4_witness :
    (pyRound ((50 : ℚ) / 100 * ((20 : ℕ) : ℚ))).toNat ≤ 20 :=
  (claim_C4_graph_shape 50 20 (by norm_num) (by norm_num)).2.1

/-- C6: `human_readable` always renders a one-decimal value, a space and a
unit letter from B/K/M/G/T/P, and the rendered value (the rounded tenths)
multiplied by its unit's byte multiplier is within half a tenth of that
multiplier of `k * 1024` bytes; in particular
`human_readable 2048 = "2.0 M"`. -/
theorem claim_C6_round_trip :
    (∀ k : ℕ, ∃ v : ℚ, ∃ u : String,
      humanReadablePair (k : ℤ) = (v, u) ∧
      u ∈ ["B", "K", "M", "G", "T", "P"] ∧
      human_readable (k : ℤ) = formatFixed1 v ++ " " ++ u ∧
      |((pyRound (10 * v) : ℤ) : ℚ) / 10 * unitMult u - (k : ℚ) * 1024| ≤
        unitMult u / 20) ∧
    human_readable 2048 = "2.0 M" := by
  constructor
  · intro k
    obtain ⟨i, haux, hmult⟩ := humanReadableAux_cases ((k : ℚ) * 1024)
    have hpair : humanReadablePair (k : ℤ) =
        ((k : ℚ) * 1024 / 1024 ^ i, ["B", "K", "M", "G", "T", "P"].getD i "P") := by
      rw [humanReadablePair, show (((k : ℤ)) : ℚ) = (k : ℚ) by push_cast; rfl]
      exact haux
    refine ⟨_, _, hpair, unitName_mem i, ?_, ?_⟩
    · rw [human_readable, hpair]
    · rw [hmult]
      refine fixed1_tolerance _ _ _ (by positivity) ?_
      field_simp
  · have h1 : humanReadablePair 2048 = (2, "M") := by
      rw [humanReadablePair, show (((2048 : ℤ)) : ℚ) * 1024 = 2097152 by norm_num]
      simp only [humanReadableAux]
      norm_num
    have h2 : formatFixed1 2 = "2.0" := by
      simp only [formatFixed1]
      rw [show (10 : ℚ) * 2 = ((20 : ℤ) : ℚ) by norm_num, pyRound_intCast]
      decide
    rw [human_readable, h1]
    show formatFixed1 2 ++ " " ++ "M" = "2.0 M"
    rw [h2]
    decide

/-- C10: for the edge input `size_kb = 0` the byte count is 0, the loop
stops at the first unit, and `human_readable 0` renders `"0.0 B"`. -/
theorem claim_C10_zero_is_B :
    human_readable 0 = "0.0 B" ∧ humanReadablePair 0 = ((0 : ℚ), "B") := by
  have h1 : humanReadablePair 0 = ((0 : ℚ), "B") := by
    rw [humanReadablePair, show (((0 : ℤ)) : ℚ) * 1024 = 0 by norm_num]
    simp only [humanReadableAux]
    norm_num
  refine ⟨?_, h1⟩
  rw [human_readable, h1]
  show formatFixed1 0 ++ " " ++ "B" = "0.0 B"
  have h2 : formatFixed1 0 = "0.0" := by
    simp only [formatFixed1]
    rw [show (10 : ℚ) * 0 = ((0 : ℤ) : ℚ) by norm_num, pyRound_intCast]
    decide
  rw [h2]
  decide

end Duim
